import Mathlib

/-!
Verification of the crossplane-diagnose core: a shallow embedding of the
tree builder (`pkg/tree/tree.go`), the forest deduplication pass
(`cmd` root command, step 4) and the failure summarizer
(`pkg/report`, `GetSummary`), with theorems settling the specified
properties of the health classifier, reference resolution, error
handling, deduplication and summarization.
-/

/-- One status condition record as extracted by `buildNodeRecursive`:
the four fields are read with `cond["type"].(string)` etc., so a missing
or non-string field is represented by the empty string (the Go zero
value produced by the failed type assertion). -/
structure Condition where
  ctype : String
  status : String
  reason : String
  message : String
deriving DecidableEq, Repr

/-- One entry of `spec.resourceRefs` as extracted by `buildNodeRecursive`:
`apiVersion`, `kind`, `name` read with string type assertions, empty
string when absent or non-string (a non-map entry behaves exactly like
an all-empty record: it is skipped). -/
structure Ref where
  apiVersion : String
  kind : String
  name : String
deriving DecidableEq, Repr

/-- One event object as consumed by `fetchEvents`: the `reason`,
`message` and `type` fields read via `NestedString` (empty when absent). -/
structure EventItem where
  reason : String
  message : String
  etype : String
deriving DecidableEq, Repr

/-- An unstructured object as seen by `buildNodeRecursive`: kind, name,
namespace, the `status.conditions` slice (`none` when `NestedSlice`
reports not-found or an error) and the `spec.resourceRefs` slice
(`none` when not found or on error). -/
structure Obj where
  kind : String
  name : String
  nspace : String
  conditions : Option (List Condition)
  resourceRefs : Option (List Ref)

/-- Model of `schema.GroupVersionResource`. -/
structure GVR where
  group : String
  version : String
  resource : String
deriving DecidableEq, Repr

/-- The dynamic client as used by the builder: `fetch` models
`client.Resource(gvr).Get(ctx, name, ...)`, `listEvents` models the
events List call of `fetchEvents` with its server-side field selector
`involvedObject.kind=<kind>,involvedObject.name=<name>` scoped to the
namespace (or cluster-wide when the namespace is empty). -/
structure Env where
  fetch : GVR → String → Except String Obj
  listEvents : String → String → String → Except String (List EventItem)

/-- Splits a character list at its first '/': the Go `strings.Index`
slicing `gv[:i]` / `gv[i+1:]` used by `ParseGroupVersion`. -/
def splitAtFirstSlash : List Char → List Char × List Char
  | [] => ([], [])
  | c :: cs =>
    if c = '/' then ([], cs)
    else
      let p := splitAtFirstSlash cs
      (c :: p.1, p.2)

/-- Model of `schema.ParseGroupVersion`: empty or "/" parse to the empty
group/version; no slash means core group (empty group, whole string as
version); exactly one slash splits at it; two or more slashes are an
error (`none`). -/
def parseGroupVersion (gv : String) : Option (String × String) :=
  if gv.length == 0 || gv == "/" then some ("", "")
  else
    match gv.data.count '/' with
    | 0 => some ("", gv)
    | 1 => some (⟨(splitAtFirstSlash gv.data).1⟩, ⟨(splitAtFirstSlash gv.data).2⟩)
    | _ => none

/-- One node of the built tree: `report.ResourceStatus`. -/
inductive ResourceStatus : Type where
  | mk (kind name synced ready status : String)
       (events conditions : List String)
       (children : List ResourceStatus) : ResourceStatus

def ResourceStatus.kind : ResourceStatus → String
  | .mk k _ _ _ _ _ _ _ => k

def ResourceStatus.name : ResourceStatus → String
  | .mk _ n _ _ _ _ _ _ => n

def ResourceStatus.synced : ResourceStatus → String
  | .mk _ _ sy _ _ _ _ _ => sy

def ResourceStatus.ready : ResourceStatus → String
  | .mk _ _ _ rd _ _ _ _ => rd

def ResourceStatus.status : ResourceStatus → String
  | .mk _ _ _ _ st _ _ _ => st

def ResourceStatus.events : ResourceStatus → List String
  | .mk _ _ _ _ _ ev _ _ => ev

def ResourceStatus.conditions : ResourceStatus → List String
  | .mk _ _ _ _ _ _ cd _ => cd

def ResourceStatus.children : ResourceStatus → List ResourceStatus
  | .mk _ _ _ _ _ _ _ ch => ch

/-- The condition line `fmt.Sprintf("%s=%s (%s): %s", ...)`. -/
def formatCondition (c : Condition) : String :=
  c.ctype ++ "=" ++ c.status ++ " (" ++ c.reason ++ "): " ++ c.message

/-- One iteration of the condition loop in `buildNodeRecursive`: update
`node.Synced` when the type is "Synced", `node.Ready` when the type is
"Ready", and append the formatted condition line. The accumulator is
`(synced, ready, conditionLines)`. -/
def classifyStep (acc : String × String × List String) (c : Condition) :
    String × String × List String :=
  (if c.ctype == "Synced" then c.status else acc.1,
   if c.ctype == "Ready" then c.status else acc.2.1,
   acc.2.2 ++ [formatCondition c])

/-- The event line `fmt.Sprintf("[%s] %s: %s", typeStr, reason, message)`. -/
def formatEvent (e : EventItem) : String :=
  "[" ++ e.etype ++ "] " ++ e.reason ++ ": " ++ e.message

/-- Model of `Builder.fetchEvents`: list events for the kind/name/namespace and
format each item; a List error is propagated to the caller. -/
def goFetchEvents (env : Env) (kind name nspace : String) :
    Except String (List String) :=
  match env.listEvents kind name nspace with
  | .error e => .error e
  | .ok items => .ok (items.map formatEvent)

/-- The leaf node appended when fetching a referenced child fails:
`report.ResourceStatus{Kind: kind, Name: refName, Status: "Error fetching: <err>"}`
with every other field left at its Go zero value. -/
def errorNode (kind name msg : String) : ResourceStatus :=
  .mk kind name "" "" ("Error fetching: " ++ msg) [] [] []

/-- Body of one iteration of the `spec.resourceRefs` loop in
`buildNodeRecursive`: skip (no node) when apiVersion/kind/name is empty
or the apiVersion does not parse; build the child GVR with the naive
`strings.ToLower(kind) + "s"` plural; on fetch error append the error
leaf; on success recurse on the fetched object. -/
def processRef (env : Env) (recurse : Obj → ResourceStatus) (r : Ref) :
    List ResourceStatus :=
  if r.apiVersion == "" || r.kind == "" || r.name == "" then []
  else
    match parseGroupVersion r.apiVersion with
    | none => []
    | some gv =>
      match env.fetch ⟨gv.1, gv.2, r.kind.toLower ++ "s"⟩ r.name with
      | .error msg => [errorNode r.kind r.name msg]
      | .ok childObj => [recurse childObj]

/-- The `spec.resourceRefs` loop: children are appended in reference
order, each reference contributing zero or one node. -/
def buildChildren (env : Env) (recurse : Obj → ResourceStatus) :
    List Ref → List ResourceStatus
  | [] => []
  | r :: rs => processRef env recurse r ++ buildChildren env recurse rs

/-- The condition list of an object as iterated by `buildNodeRecursive`:
the loop body runs only when `NestedSlice` reports `found`. -/
def condsOf (obj : Obj) : List Condition :=
  match obj.conditions with
  | some cs => cs
  | none => []

/-- The body of `buildNodeRecursive` with the recursive call abstracted
as `recurse`: start from the "Unknown"/"Unknown" defaults, fold the
condition loop, derive the overall status, fetch events (an error leaves
`node.Events` at its nil default), and build the children from
`spec.resourceRefs` when present. -/
def buildNodeStep (env : Env) (recurse : Obj → ResourceStatus) (obj : Obj) :
    ResourceStatus :=
  let st := (condsOf obj).foldl classifyStep ("Unknown", "Unknown", [])
  let status := if st.2.1 == "True" && st.1 == "True" then "Available" else "Unhealthy"
  let events := match goFetchEvents env obj.kind obj.name obj.nspace with
    | .ok es => es
    | .error _ => []
  let children := match obj.resourceRefs with
    | some refs => buildChildren env recurse refs
    | none => []
  .mk obj.kind obj.name st.1 st.2.1 status events st.2.2 children

/-- Model of `buildNodeRecursive`, with a fuel bound standing in for the
unbounded Go recursion (the Go code has no depth bound or cycle guard;
every claim below is independent of the bound). At fuel zero the
recursive call degenerates to a zero-valued node; all theorems are
stated either about `buildNodeStep` with the recursion abstract or at a
positive fuel. -/
def buildNodeRecursive (env : Env) : Nat → Obj → ResourceStatus
  | 0, obj => buildNodeStep env (fun _ => .mk "" "" "" "" "" [] [] []) obj
  | fuel + 1, obj => buildNodeStep env (buildNodeRecursive env fuel) obj

/-- Model of `Builder.BuildTree`: fetch the root and build recursively; a root
fetch error aborts the whole tree. -/
def BuildTree (env : Env) (fuel : Nat) (gvr : GVR) (name : String) :
    Except String ResourceStatus :=
  match env.fetch gvr name with
  | .error e => .error ("failed to get XR " ++ name ++ ": " ++ e)
  | .ok xr => .ok (buildNodeRecursive env fuel xr)

/-- The last condition record of a given type in a condition list
(the record whose status the classifier ends up keeping). -/
def lastCondOfType (t : String) (cs : List Condition) : Option Condition :=
  (cs.filter fun c => c.ctype == t).getLast?

/-- The running value of one classifier state component: fold the
"overwrite when the type matches" update over the list. -/
def condStateGo (t : String) (cs : List Condition) (d : String) : String :=
  cs.foldl (fun a c => if c.ctype == t then c.status else a) d

theorem classify_foldl_fst (cs : List Condition) (s r : String) (ls : List String) :
    (cs.foldl classifyStep (s, r, ls)).1 = condStateGo "Synced" cs s := by
  induction cs generalizing s r ls with
  | nil => rfl
  | cons c cs ih => simp [classifyStep, condStateGo, List.foldl] at ih ⊢; exact ih ..

theorem classify_foldl_ready (cs : List Condition) (s r : String) (ls : List String) :
    (cs.foldl classifyStep (s, r, ls)).2.1 = condStateGo "Ready" cs r := by
  induction cs generalizing s r ls with
  | nil => rfl
  | cons c cs ih => simp [classifyStep, condStateGo, List.foldl] at ih ⊢; exact ih ..

theorem classify_foldl_lines (cs : List Condition) (s r : String) (ls : List String) :
    (cs.foldl classifyStep (s, r, ls)).2.2 = ls ++ cs.map formatCondition := by
  induction cs generalizing s r ls with
  | nil => simp
  | cons c cs ih => simp [classifyStep, List.foldl, ih]

theorem condStateGo_eq_last (t : String) (cs : List Condition) (d : String) :
    condStateGo t cs d = (lastCondOfType t cs).elim d Condition.status := by
  induction cs using List.reverseRecOn with
  | nil => rfl
  | append_singleton cs c ih =>
    by_cases h : c.ctype = t
    · simp [condStateGo, List.foldl_append, lastCondOfType, List.filter_append, h,
        List.getLast?_concat]
    · have hb : (c.ctype == t) = false := beq_eq_false_iff_ne.mpr h
      simp only [condStateGo, List.foldl_append, List.foldl_cons, List.foldl_nil,
        lastCondOfType, List.filter_append, List.filter_cons, List.filter_nil, hb,
        Bool.false_eq_true, if_false, List.append_nil] at ih ⊢
      exact ih

theorem buildNodeStep_synced (env : Env) (recurse : Obj → ResourceStatus) (obj : Obj) :
    (buildNodeStep env recurse obj).synced =
      (lastCondOfType "Synced" (condsOf obj)).elim "Unknown" Condition.status := by
  simp [buildNodeStep, ResourceStatus.synced, classify_foldl_fst, condStateGo_eq_last]

theorem buildNodeStep_ready (env : Env) (recurse : Obj → ResourceStatus) (obj : Obj) :
    (buildNodeStep env recurse obj).ready =
      (lastCondOfType "Ready" (condsOf obj)).elim "Unknown" Condition.status := by
  simp [buildNodeStep, ResourceStatus.ready, classify_foldl_ready, condStateGo_eq_last]

theorem buildNodeStep_status (env : Env) (recurse : Obj → ResourceStatus) (obj : Obj) :
    (buildNodeStep env recurse obj).status =
      if (buildNodeStep env recurse obj).ready == "True" &&
         (buildNodeStep env recurse obj).synced == "True"
      then "Available" else "Unhealthy" := by
  simp only [buildNodeStep, ResourceStatus.status, ResourceStatus.ready, ResourceStatus.synced]

/-- C1: for every condition list (and any client behaviour and any child
recursion), the node built by the builder body has overall status
"Available" iff the last condition record of type "Ready" and the last
condition record of type "Synced" both have status exactly "True"; in
every other case, including a missing "Ready" or "Synced" entry (which
leaves the state at its "Unknown" default), the overall status is
"Unhealthy". -/
theorem classifier_available_iff (env : Env) (recurse : Obj → ResourceStatus)
    (obj : Obj) :
    ((buildNodeStep env recurse obj).status = "Available" ↔
      ((lastCondOfType "Ready" (condsOf obj)).map Condition.status = some "True" ∧
       (lastCondOfType "Synced" (condsOf obj)).map Condition.status = some "True")) ∧
    ((buildNodeStep env recurse obj).status = "Available" ∨
     (buildNodeStep env recurse obj).status = "Unhealthy") := by
  have hst := buildNodeStep_status env recurse obj
  rw [buildNodeStep_ready, buildNodeStep_synced] at hst
  constructor
  · rw [hst]
    cases hR : lastCondOfType "Ready" (condsOf obj) with
    | none =>
      cases hS : lastCondOfType "Synced" (condsOf obj) with
      | none => simp [Option.elim]
      | some c => simp [Option.elim]
    | some c =>
      cases hS : lastCondOfType "Synced" (condsOf obj) with
      | none => simp [Option.elim]
      | some d =>
        simp only [Option.elim, Option.map_some]
        constructor
        · intro h
          by_cases h1 : c.status = "True" <;> by_cases h2 : d.status = "True" <;>
            simp [h1, h2] at h ⊢
        · rintro ⟨h1, h2⟩
          simp at h1 h2
          simp [h1, h2]
  · rw [hst]
    by_cases h : ((lastCondOfType "Ready" (condsOf obj)).elim "Unknown" Condition.status == "True" &&
        (lastCondOfType "Synced" (condsOf obj)).elim "Unknown" Condition.status == "True") = true
    · simp [h]
    · simp [h]

/-- Witness for C1 at a concrete input: a condition list whose last
"Ready" record is "True" but whose last "Synced" record is "False"
classifies as not "Available", hence "Unhealthy". -/
def env0 : Env := ⟨fun _ _ => .error "boom", fun _ _ _ => .ok []⟩

def rec0 : Obj → ResourceStatus := fun _ => .mk "" "" "" "" "" [] [] []

def objC1 : Obj :=
  ⟨"XDatabase", "my-db", "",
    some [⟨"Ready", "True", "", ""⟩, ⟨"Synced", "True", "", ""⟩,
          ⟨"Synced", "False", "ReconcileError", "boom"⟩], none⟩

theorem classifier_available_iff_witness :
    (buildNodeStep env0 rec0 objC1).status = "Unhealthy" := by
  have h := classifier_available_iff env0 rec0 objC1
  rcases h.2 with hA | hU
  · exfalso
    have := (h.1.mp hA).2
    revert this
    decide
  · exact hU

/-- C4 counterexample: a condition of type "Ready" whose `status` field
is absent (extracted as the empty string by the Go type assertion) is
copied verbatim into the node, so `readyState` is the empty string,
which is none of "True", "False", "Unknown". -/
def objC4 : Obj := ⟨"RDSInstance", "db", "", some [⟨"Ready", "", "", ""⟩], none⟩

theorem ready_state_not_tristate :
    (buildNodeStep env0 rec0 objC4).ready ≠ "True" ∧
    (buildNodeStep env0 rec0 objC4).ready ≠ "False" ∧
    (buildNodeStep env0 rec0 objC4).ready ≠ "Unknown" := by
  refine ⟨?_, ?_, ?_⟩ <;> decide

/-- C4 amended: the builder copies the raw status string of the last
matching condition, so the tri-state invariant holds for a node exactly
when the condition records it was built from only carry tri-state
statuses; a missing "Synced" or "Ready" condition leaves the "Unknown"
default. Fetch-error leaf children instead carry the empty string in
both fields. -/
theorem tri_state_of_tri_state_conditions (env : Env)
    (recurse : Obj → ResourceStatus) (obj : Obj)
    (h : ∀ c ∈ condsOf obj,
      c.status = "True" ∨ c.status = "False" ∨ c.status = "Unknown") :
    ((buildNodeStep env recurse obj).synced = "True" ∨
     (buildNodeStep env recurse obj).synced = "False" ∨
     (buildNodeStep env recurse obj).synced = "Unknown") ∧
    ((buildNodeStep env recurse obj).ready = "True" ∨
     (buildNodeStep env recurse obj).ready = "False" ∨
     (buildNodeStep env recurse obj).ready = "Unknown") ∧
    (∀ k n m, (errorNode k n m).synced = "" ∧ (errorNode k n m).ready = "") := by
  refine ⟨?_, ?_, fun k n m => ⟨rfl, rfl⟩⟩
  · rw [buildNodeStep_synced]
    cases hS : lastCondOfType "Synced" (condsOf obj) with
    | none => simp [Option.elim]
    | some c =>
      have hc : c ∈ condsOf obj := by
        rw [lastCondOfType] at hS
        exact (List.mem_filter.mp (List.mem_of_mem_getLast? (Option.mem_def.mpr hS))).1
      simpa [Option.elim] using h c hc
  · rw [buildNodeStep_ready]
    cases hR : lastCondOfType "Ready" (condsOf obj) with
    | none => simp [Option.elim]
    | some c =>
      have hc : c ∈ condsOf obj := by
        rw [lastCondOfType] at hR
        exact (List.mem_filter.mp (List.mem_of_mem_getLast? (Option.mem_def.mpr hR))).1
      simpa [Option.elim] using h c hc

def objC4w : Obj :=
  ⟨"XDatabase", "my-db", "",
    some [⟨"Synced", "True", "", ""⟩, ⟨"Ready", "False", "CreateFailed", "x"⟩], none⟩

theorem tri_state_of_tri_state_conditions_witness :
    (∀ c ∈ condsOf objC4w,
      c.status = "True" ∨ c.status = "False" ∨ c.status = "Unknown") ∧
    ((buildNodeStep env0 rec0 objC4w).synced = "True" ∨
     (buildNodeStep env0 rec0 objC4w).synced = "False" ∨
     (buildNodeStep env0 rec0 objC4w).synced = "Unknown") :=
  ⟨by decide, (tri_state_of_tri_state_conditions env0 rec0 objC4w (by decide)).1⟩

theorem buildChildren_append (env : Env) (recurse : Obj → ResourceStatus)
    (xs ys : List Ref) :
    buildChildren env recurse (xs ++ ys) =
      buildChildren env recurse xs ++ buildChildren env recurse ys := by
  induction xs with
  | nil => rfl
  | cons r rs ih => simp [buildChildren, ih]

theorem processRef_fetch_error (env : Env) (recurse : Obj → ResourceStatus)
    (r : Ref) (gv : String × String) (msg : String)
    (hav : r.apiVersion ≠ "") (hk : r.kind ≠ "") (hn : r.name ≠ "")
    (hp : parseGroupVersion r.apiVersion = some gv)
    (hf : env.fetch ⟨gv.1, gv.2, r.kind.toLower ++ "s"⟩ r.name = .error msg) :
    processRef env recurse r = [errorNode r.kind r.name msg] := by
  rw [processRef]
  have h1 : (r.apiVersion == "" || r.kind == "" || r.name == "") = false := by
    simp [hav, hk, hn]
  rw [h1]
  simp only [Bool.false_eq_true, if_false, hp, hf]

/-- C5: a declared reference whose fields are present and whose
api-version parses, but whose fetch fails, contributes exactly one leaf
child carrying the reference's kind and name and the status
"Error fetching: <message>", with no children, no conditions and no
events; the references before and after it are processed unchanged, so
the parent tree is not aborted. -/
theorem fetch_error_leaf (env : Env) (recurse : Obj → ResourceStatus)
    (pre post : List Ref) (r : Ref) (gv : String × String) (msg : String)
    (hav : r.apiVersion ≠ "") (hk : r.kind ≠ "") (hn : r.name ≠ "")
    (hp : parseGroupVersion r.apiVersion = some gv)
    (hf : env.fetch ⟨gv.1, gv.2, r.kind.toLower ++ "s"⟩ r.name = .error msg) :
    buildChildren env recurse (pre ++ r :: post) =
      buildChildren env recurse pre ++
        errorNode r.kind r.name msg :: buildChildren env recurse post ∧
    (errorNode r.kind r.name msg).kind = r.kind ∧
    (errorNode r.kind r.name msg).name = r.name ∧
    (errorNode r.kind r.name msg).status = "Error fetching: " ++ msg ∧
    (errorNode r.kind r.name msg).children = [] ∧
    (errorNode r.kind r.name msg).conditions = [] ∧
    (errorNode r.kind r.name msg).events = [] := by
  refine ⟨?_, rfl, rfl, rfl, rfl, rfl, rfl⟩
  rw [buildChildren_append, buildChildren,
    processRef_fetch_error env recurse r gv msg hav hk hn hp hf]
  rfl

def refC5 : Ref := ⟨"ec2.aws.example.org/v1beta1", "RDSInstance", "db1"⟩

theorem fetch_error_leaf_witness :
    buildChildren env0 rec0 ([] ++ refC5 :: []) =
      buildChildren env0 rec0 [] ++
        errorNode refC5.kind refC5.name "boom" :: buildChildren env0 rec0 [] ∧
    (errorNode refC5.kind refC5.name "boom").status = "Error fetching: " ++ "boom" :=
  ⟨(fetch_error_leaf env0 rec0 [] [] refC5 ("ec2.aws.example.org", "v1beta1") "boom"
      (by decide) (by decide) (by decide) (by decide) rfl).1,
   (fetch_error_leaf env0 rec0 [] [] refC5 ("ec2.aws.example.org", "v1beta1") "boom"
      (by decide) (by decide) (by decide) (by decide) rfl).2.2.2.1⟩

theorem processRef_skip (env : Env) (recurse : Obj → ResourceStatus) (r : Ref)
    (h : r.apiVersion = "" ∨ r.kind = "" ∨ r.name = "" ∨
      parseGroupVersion r.apiVersion = none) :
    processRef env recurse r = [] := by
  rw [processRef]
  rcases h with h | h | h | h
  · simp [h]
  · simp [h]
  · simp [h]
  · by_cases hc : (r.apiVersion == "" || r.kind == "" || r.name == "") = true
    · simp [hc]
    · simp only [hc, Bool.false_eq_true, if_false, h]

/-- C6: a reference entry with an empty apiVersion, kind or name, or an
apiVersion that does not parse into group/version, yields no child node
at all: the children of the surrounding list are exactly those of the
other references, so no error node is created and the children count
excludes the skipped entry. -/
theorem incomplete_ref_skipped (env : Env) (recurse : Obj → ResourceStatus)
    (pre post : List Ref) (r : Ref)
    (h : r.apiVersion = "" ∨ r.kind = "" ∨ r.name = "" ∨
      parseGroupVersion r.apiVersion = none) :
    buildChildren env recurse (pre ++ r :: post) =
      buildChildren env recurse pre ++ buildChildren env recurse post := by
  rw [buildChildren_append, buildChildren, processRef_skip env recurse r h,
    List.nil_append]

def refC6a : Ref := ⟨"", "RDSInstance", "db1"⟩

def refC6b : Ref := ⟨"a/b/c", "RDSInstance", "db2"⟩

theorem incomplete_ref_skipped_witness :
    buildChildren env0 rec0 ([refC5] ++ refC6a :: [refC6b]) =
      buildChildren env0 rec0 [refC5] ++ buildChildren env0 rec0 [refC6b] :=
  incomplete_ref_skipped env0 rec0 [refC5] [refC6b] refC6a (Or.inl rfl)

theorem buildChildren_fetch_congr (env env2 : Env)
    (h : env.fetch = env2.fetch) (recurse : Obj → ResourceStatus)
    (refs : List Ref) :
    buildChildren env recurse refs = buildChildren env2 recurse refs := by
  induction refs with
  | nil => rfl
  | cons r rs ih =>
    rw [buildChildren, buildChildren, ih, processRef, processRef, h]

/-- C7: the builder body computes the events of every node from the
event correlator alone — two objects with the same kind, name and
namespace get the same event list no matter what their conditions (and
hence health status) are — and when the event List call fails the node
is still built, equal in every field to the node built against a client
that returns zero events; in particular its event list is empty. -/
theorem events_always_fetched_and_nonfatal (env : Env)
    (recurse : Obj → ResourceStatus) (obj : Obj) :
    (∀ obj2 : Obj, obj2.kind = obj.kind → obj2.name = obj.name →
      obj2.nspace = obj.nspace →
      (buildNodeStep env recurse obj2).events =
        (buildNodeStep env recurse obj).events) ∧
    (∀ e, env.listEvents obj.kind obj.name obj.nspace = .error e →
      (buildNodeStep env recurse obj).events = [] ∧
      buildNodeStep env recurse obj =
        buildNodeStep { env with listEvents := fun _ _ _ => .ok [] } recurse obj) := by
  constructor
  · intro obj2 hk hn hs
    simp only [buildNodeStep, ResourceStatus.events, hk, hn, hs]
  · intro e he
    have hev : (buildNodeStep env recurse obj).events = [] := by
      simp only [buildNodeStep, ResourceStatus.events, goFetchEvents, he]
    refine ⟨hev, ?_⟩
    simp only [buildNodeStep, goFetchEvents, he, List.map_nil]
    congr 1
    cases obj.resourceRefs with
    | none => rfl
    | some refs =>
      exact buildChildren_fetch_congr env
        { env with listEvents := fun _ _ _ => .ok [] } rfl recurse refs

def envC7 : Env := ⟨fun _ _ => .error "nofetch", fun _ _ _ => .error "events forbidden"⟩

def objC7 : Obj :=
  ⟨"XDatabase", "my-db", "prod", some [⟨"Ready", "True", "", ""⟩], some [refC5]⟩

theorem events_always_fetched_and_nonfatal_witness :
    envC7.listEvents objC7.kind objC7.name objC7.nspace = .error "events forbidden" ∧
    (buildNodeStep envC7 rec0 objC7).events = [] :=
  ⟨rfl,
   ((events_always_fetched_and_nonfatal envC7 rec0 objC7).2 "events forbidden" rfl).1⟩

/-- Does `pat` occur at the start of `s` (character lists)? -/
def charsStartWith : List Char → List Char → Bool
  | [], _ => true
  | _ :: _, [] => false
  | p :: ps, c :: cs => p == c && charsStartWith ps cs

/-- Does `s` contain `pat` as a contiguous run (character lists)? -/
def charsContain : List Char → List Char → Bool
  | [], pat => pat.isEmpty
  | c :: cs, pat => charsStartWith pat (c :: cs) || charsContain cs pat

/-- Model of `strings.Contains` as used by `GetSummary` (the patterns "False" and
"Unknown" are ASCII, for which byte-level and character-level
containment in UTF-8 agree). -/
def strContainsGo (s pat : String) : Bool := charsContain s.data pat.data

/-- The condition-line test of the `GetSummary` reason loop:
`strings.Contains(cond, "False") || strings.Contains(cond, "Unknown")`. -/
def reasonPick (c : String) : Bool :=
  strContainsGo c "False" || strContainsGo c "Unknown"

/-- The "most relevant reason" selection of `GetSummary`: start from
"Unknown reason"; when there are condition lines, take the first one
containing "False" or "Unknown" (the loop with break), and if the
resulting string still equals "Unknown reason" replace it by the first
condition line; with no condition lines but some events take the first
event line. -/
def findReason (conds events : List String) : String :=
  if conds.length > 0 then
    let r := (conds.find? reasonPick).getD "Unknown reason"
    if r == "Unknown reason" then conds.headD "Unknown reason" else r
  else if events.length > 0 then events.headD "Unknown reason"
  else "Unknown reason"

/-- The unhealthiness test of `GetSummary`'s `collectUnhealthy` helper:
`node.Status != "Available" && node.Status != "Synced"`. -/
def isUnhealthyB (n : ResourceStatus) : Bool :=
  !(n.status == "Available") && !(n.status == "Synced")

mutual
def collectUnhealthy : ResourceStatus → List ResourceStatus
  | .mk k n sy rd st ev cd ch =>
    (if isUnhealthyB (.mk k n sy rd st ev cd ch)
      then [ResourceStatus.mk k n sy rd st ev cd ch] else [])
      ++ collectUnhealthyList ch
def collectUnhealthyList : List ResourceStatus → List ResourceStatus
  | [] => []
  | t :: ts => collectUnhealthy t ++ collectUnhealthyList ts
end

mutual
def nodesOf : ResourceStatus → List ResourceStatus
  | .mk k n sy rd st ev cd ch => .mk k n sy rd st ev cd ch :: nodesOfList ch
def nodesOfList : List ResourceStatus → List ResourceStatus
  | [] => []
  | t :: ts => nodesOf t ++ nodesOfList ts
end

mutual
theorem collectUnhealthy_eq (t : ResourceStatus) :
    collectUnhealthy t = (nodesOf t).filter isUnhealthyB := by
  cases t with
  | mk k n sy rd st ev cd ch =>
    rw [collectUnhealthy, nodesOf, List.filter_cons, collectUnhealthyList_eq ch]
    by_cases hb : isUnhealthyB (.mk k n sy rd st ev cd ch) = true
    · simp [hb]
    · rw [Bool.not_eq_true] at hb
      simp [hb]
theorem collectUnhealthyList_eq (l : List ResourceStatus) :
    collectUnhealthyList l = (nodesOfList l).filter isUnhealthyB := by
  cases l with
  | nil => rfl
  | cons t ts =>
    rw [collectUnhealthyList, nodesOfList, List.filter_append,
      collectUnhealthy_eq t, collectUnhealthyList_eq ts]
end

/-- Model of `report.CompositeData`: one root identity with its tree (`none`
models a nil tree pointer) and build-error string. -/
structure CompositeData where
  name : String
  kind : String
  error : String
  tree : Option ResourceStatus

/-- The per-resource line pair of the summary:
`"  - Child %s/%s: %s\n    Reason: %s\n"`. -/
def unhealthyLine (res : ResourceStatus) : String :=
  "  - Child " ++ res.kind ++ "/" ++ res.name ++ ": " ++ res.status ++
    "\n    Reason: " ++ findReason res.conditions res.events ++ "\n"

/-- The lines for the unhealthy resources of one tree, emitted in
collection order. -/
def unhealthyLinesText (u : List ResourceStatus) : String :=
  u.foldl (fun s res => s ++ unhealthyLine res) ""

/-- One iteration of the `GetSummary` loop over the forest: a nil tree
contributes nothing; a tree with unhealthy nodes appends its group
header, the per-resource lines and a blank line, and marks failures. -/
def summaryStep (acc : String × Bool) (d : CompositeData) : String × Bool :=
  match d.tree with
  | none => acc
  | some t =>
    let u := collectUnhealthy t
    if u.length > 0 then
      (acc.1 ++ "❌ Top Parent: " ++ d.kind ++ "/" ++ d.name ++ "\n" ++
        unhealthyLinesText u ++ "\n", true)
    else acc

/-- Model of `report.GetSummary`: the summary header, then the per-tree failure
groups; when no tree contributed failures, the all-healthy line; returns
the text and the `hasFailures` flag. -/
def getSummary (data : List CompositeData) : String × Bool :=
  let r := data.foldl summaryStep ("\n--- Summary ---\n", false)
  if r.2 then r else (r.1 ++ "✅ All resources are healthy!\n", false)

/-- The unhealthy nodes one forest entry contributes (none for a nil tree). -/
def treeUnhealthy (d : CompositeData) : List ResourceStatus :=
  match d.tree with
  | some t => collectUnhealthy t
  | none => []

/-- All nodes of one forest entry's tree (none for a nil tree). -/
def treeNodes (d : CompositeData) : List ResourceStatus :=
  match d.tree with
  | some t => nodesOf t
  | none => []

theorem treeUnhealthy_eq_filter (d : CompositeData) :
    treeUnhealthy d = (treeNodes d).filter isUnhealthyB := by
  rw [treeUnhealthy, treeNodes]
  cases d.tree with
  | none => rfl
  | some t => exact collectUnhealthy_eq t

theorem summary_foldl_flag (data : List CompositeData) (s : String) (b : Bool) :
    (data.foldl summaryStep (s, b)).2 =
      (b || data.any fun d => decide (0 < (treeUnhealthy d).length)) := by
  induction data generalizing s b with
  | nil => simp
  | cons d ds ih =>
    rw [List.foldl_cons, List.any_cons]
    rw [summaryStep]
    cases hd : d.tree with
    | none =>
      rw [ih]
      simp [treeUnhealthy, hd]
    | some t =>
      dsimp only
      by_cases hu : (collectUnhealthy t).length > 0
      · rw [if_pos hu, ih]
        simp [treeUnhealthy, hd]
        exact Or.inr (Or.inl hu)
      · rw [if_neg hu, ih]
        simp only [treeUnhealthy, hd]
        simp [Nat.not_lt, Nat.le_zero] at hu
        simp [hu]

theorem summary_foldl_no_failures (data : List CompositeData) (s : String) (b : Bool)
    (h : ∀ d ∈ data, treeUnhealthy d = []) :
    data.foldl summaryStep (s, b) = (s, b) := by
  induction data generalizing s b with
  | nil => rfl
  | cons d ds ih =>
    rw [List.foldl_cons, summaryStep]
    have hd := h d (List.mem_cons_self d ds)
    rw [treeUnhealthy] at hd
    cases htree : d.tree with
    | none => exact ih s b fun x hx => h x (List.mem_cons_of_mem d hx)
    | some t =>
      rw [htree] at hd
      dsimp only at hd ⊢
      rw [hd]
      simp only [List.length_nil, gt_iff_lt, Nat.lt_irrefl, if_false]
      exact ih s b fun x hx => h x (List.mem_cons_of_mem d hx)

theorem getSummary_snd (data : List CompositeData) :
    (getSummary data).2 =
      (data.foldl summaryStep ("\n--- Summary ---\n", false)).2 := by
  rw [getSummary]
  by_cases h : (data.foldl summaryStep ("\n--- Summary ---\n", false)).2 = true
  · simp [h]
  · rw [Bool.not_eq_true] at h
    simp [h]

/-- C8: `hasFailures` is true iff some forest entry with a non-nil tree
contains a node whose overall status is neither "Available" nor
"Synced"; when no entry does, the summary text is exactly the header
plus the all-healthy sentinel line and the flag is false. -/
theorem hasFailures_iff_unhealthy_node (data : List CompositeData) :
    ((getSummary data).2 = true ↔
      ∃ d ∈ data, ∃ m ∈ treeNodes d,
        m.status ≠ "Available" ∧ m.status ≠ "Synced") ∧
    ((¬ ∃ d ∈ data, ∃ m ∈ treeNodes d,
        m.status ≠ "Available" ∧ m.status ≠ "Synced") →
      getSummary data = ("\n--- Summary ---\n✅ All resources are healthy!\n", false)) := by
  have hkey : ∀ d : CompositeData,
      (0 < (treeUnhealthy d).length ↔
        ∃ m ∈ treeNodes d, m.status ≠ "Available" ∧ m.status ≠ "Synced") := by
    intro d
    rw [treeUnhealthy_eq_filter, List.length_pos_iff_exists_mem]
    constructor
    · rintro ⟨m, hm⟩
      rcases List.mem_filter.mp hm with ⟨hmem, hb⟩
      refine ⟨m, hmem, ?_⟩
      simpa [isUnhealthyB] using hb
    · rintro ⟨m, hmem, hst⟩
      exact ⟨m, List.mem_filter.mpr ⟨hmem, by simpa [isUnhealthyB] using hst⟩⟩
  have hsnd : (getSummary data).2 = true ↔
      ∃ d ∈ data, ∃ m ∈ treeNodes d,
        m.status ≠ "Available" ∧ m.status ≠ "Synced" := by
    rw [getSummary_snd, summary_foldl_flag, Bool.false_or, List.any_eq_true]
    constructor
    · rintro ⟨d, hd, hdec⟩
      exact ⟨d, hd, (hkey d).mp (of_decide_eq_true hdec)⟩
    · rintro ⟨d, hd, hex⟩
      exact ⟨d, hd, decide_eq_true ((hkey d).mpr hex)⟩
  refine ⟨hsnd, ?_⟩
  intro hno
  have hall : ∀ d ∈ data, treeUnhealthy d = [] := by
    intro d hd
    by_contra hne
    exact hno ⟨d, hd, (hkey d).mp (List.length_pos_iff_exists_mem.mpr
      (List.exists_mem_of_ne_nil _ hne))⟩
  have hfold := summary_foldl_no_failures data "\n--- Summary ---\n" false hall
  rw [getSummary, hfold]
  simp only [Bool.false_eq_true, if_false]
  constructor

def nodeAvail : ResourceStatus :=
  .mk "XDatabase" "my-db" "True" "True" "Available" []
    ["Ready=True (): ", "Synced=True (): "]
    [.mk "RDSInstance" "db-abc" "True" "True" "Available" [] [] []]

def dataC8 : List CompositeData := [⟨"my-db", "XDatabase", "", some nodeAvail⟩]

theorem hasFailures_iff_unhealthy_node_witness :
    getSummary dataC8 =
      ("\n--- Summary ---\n✅ All resources are healthy!\n", false) :=
  (hasFailures_iff_unhealthy_node dataC8).2 (by decide)

def rootObjScen : Obj :=
  ⟨"XDatabase", "my-db", "",
    some [⟨"Ready", "True", "", ""⟩, ⟨"Synced", "True", "", ""⟩],
    some [⟨"db.example.org/v1alpha1", "RDSInstance", "my-db-abc"⟩]⟩

def childObjScen : Obj :=
  ⟨"RDSInstance", "my-db-abc", "",
    some [⟨"Ready", "False", "CreateFailed", "AWS error"⟩, ⟨"Synced", "True", "", ""⟩],
    none⟩

def envScen : Env :=
  ⟨fun _ name => if name == "my-db-abc" then .ok childObjScen else .error "not found",
   fun _ _ _ => .ok []⟩

def treeScen : ResourceStatus := buildNodeRecursive envScen 1 rootObjScen

def dataScen : List CompositeData := [⟨"my-db", "XDatabase", "", some treeScen⟩]

/-- C3 (amended): the reason reported for an unhealthy node is the first
condition line containing "False" or "Unknown" — except that when that
line is exactly the literal "Unknown reason" the code's sentinel check
misfires and the first condition line is reported instead — else the
first condition line, else the first event line, else the literal
"Unknown reason". The claim's scenario holds: the XDatabase/my-db root
is Available, the RDSInstance/my-db-abc child is Unhealthy, and the
summary reports it with reason "Ready=False (CreateFailed): AWS error". -/
theorem reason_selection_rule :
    (∀ conds events : List String,
      findReason conds events =
        match conds.find? reasonPick with
        | some m =>
          if m = "Unknown reason" then conds.headD "Unknown reason" else m
        | none =>
          match conds with
          | c :: _ => c
          | [] =>
            match events with
            | e :: _ => e
            | [] => "Unknown reason") ∧
    treeScen.status = "Available" ∧
    treeScen.children.map ResourceStatus.status = ["Unhealthy"] ∧
    getSummary dataScen =
      ("\n--- Summary ---\n❌ Top Parent: XDatabase/my-db\n  - Child RDSInstance/my-db-abc: Unhealthy\n    Reason: Ready=False (CreateFailed): AWS error\n\n",
       true) := by
  refine ⟨?_, by decide, by decide, by decide⟩
  intro conds events
  cases conds with
  | nil =>
    rw [findReason]
    simp only [List.length_nil, gt_iff_lt, Nat.lt_irrefl, if_false, List.find?_nil]
    cases events with
    | nil => simp
    | cons e es => simp
  | cons c cs =>
    rw [findReason]
    simp only [List.length_cons, Nat.zero_lt_succ, if_pos]
    cases hf : (c :: cs).find? reasonPick with
    | none => simp
    | some m =>
      simp only [Option.getD_some]
      by_cases hm : m = "Unknown reason"
      · simp [hm]
      · simp [hm, beq_eq_false_iff_ne.mpr hm]

def nodeC3 : ResourceStatus :=
  .mk "Widget" "w1" "" "" "Unhealthy" [] ["a", "Unknown reason"] []

def dataC3 : List CompositeData := [⟨"w1", "Widget", "", some nodeC3⟩]

/-- C3 counterexample: for an unhealthy node with condition lines
["a", "Unknown reason"], the first line containing "False" or "Unknown"
is "Unknown reason", but the summarizer reports reason "a": after the
loop picks "Unknown reason", the `reason == "Unknown reason"` sentinel
check cannot tell it from the initial value and overwrites it with the
first condition line. -/
theorem reason_selection_counterexample :
    ["a", "Unknown reason"].find? reasonPick = some "Unknown reason" ∧
    findReason ["a", "Unknown reason"] [] = "a" ∧
    getSummary dataC3 =
      ("\n--- Summary ---\n❌ Top Parent: Widget/w1\n  - Child Widget/w1: Unhealthy\n    Reason: a\n\n",
       true) := by
  refine ⟨by decide, by decide, by decide⟩

theorem error_status_ne_available (msg : String) :
    ("Error fetching: " ++ msg) ≠ "Available" := by
  intro h
  have h2 := congrArg String.data h
  rw [String.data_append] at h2
  have hE : ("Error fetching: " : String).data = 'E' :: "rror fetching: ".data := rfl
  have hA : ("Available" : String).data = 'A' :: "vailable".data := rfl
  rw [hE, hA, List.cons_append] at h2
  injection h2 with h3 _
  exact absurd h3 (by decide)

theorem error_status_ne_synced (msg : String) :
    ("Error fetching: " ++ msg) ≠ "Synced" := by
  intro h
  have h2 := congrArg String.data h
  rw [String.data_append] at h2
  have hE : ("Error fetching: " : String).data = 'E' :: "rror fetching: ".data := rfl
  have hS : ("Synced" : String).data = 'S' :: "ynced".data := rfl
  rw [hE, hS, List.cons_append] at h2
  injection h2 with h3 _
  exact absurd h3 (by decide)

/-- C10: a fetch-error leaf node is unhealthy under the summarizer's
test whatever the error message is, so whenever it occurs in a tree it
is collected among the unhealthy nodes; and since it has no condition
lines and no event lines, its reported reason is exactly the literal
"Unknown reason". -/
theorem error_leaf_always_unhealthy (k n msg : String) (t : ResourceStatus)
    (h : errorNode k n msg ∈ nodesOf t) :
    errorNode k n msg ∈ collectUnhealthy t ∧
    isUnhealthyB (errorNode k n msg) = true ∧
    findReason (errorNode k n msg).conditions (errorNode k n msg).events =
      "Unknown reason" := by
  have hb : isUnhealthyB (errorNode k n msg) = true := by
    rw [isUnhealthyB]
    have h1 : ((errorNode k n msg).status == "Available") = false :=
      beq_eq_false_iff_ne.mpr (error_status_ne_available msg)
    have h2 : ((errorNode k n msg).status == "Synced") = false :=
      beq_eq_false_iff_ne.mpr (error_status_ne_synced msg)
    rw [h1, h2]
    rfl
  refine ⟨?_, hb, rfl⟩
  rw [collectUnhealthy_eq]
  exact List.mem_filter.mpr ⟨h, hb⟩

def treeC10 : ResourceStatus :=
  .mk "XDatabase" "my-db" "True" "True" "Available" [] []
    [errorNode "RDSInstance" "db1" "boom"]

theorem self_mem_nodesOf (t : ResourceStatus) : t ∈ nodesOf t := by
  cases t with
  | mk k n sy rd st ev cd ch =>
    rw [nodesOf]
    exact List.mem_cons_self _ _

theorem error_leaf_always_unhealthy_witness :
    errorNode "RDSInstance" "db1" "boom" ∈ nodesOf treeC10 ∧
    errorNode "RDSInstance" "db1" "boom" ∈ collectUnhealthy treeC10 :=
  have hmem : errorNode "RDSInstance" "db1" "boom" ∈ nodesOf treeC10 := by
    rw [treeC10, nodesOf, nodesOfList]
    exact List.mem_cons_of_mem _
      (List.mem_append_left _ (self_mem_nodesOf _))
  ⟨hmem, (error_leaf_always_unhealthy "RDSInstance" "db1" "boom" treeC10 hmem).1⟩

/-- The dedup key `fmt.Sprintf("%s/%s", kind, name)` used by
`collectChildren` and by the filtering loop of the root command. -/
def keyOf (kind name : String) : String := kind ++ "/" ++ name

mutual
def descKeys : ResourceStatus → List String
  | .mk _ _ _ _ _ _ _ ch => descKeysList ch
def descKeysList : List ResourceStatus → List String
  | [] => []
  | c :: cs => keyOf c.kind c.name :: (descKeys c ++ descKeysList cs)
end

mutual
def descPairs : ResourceStatus → List (String × String)
  | .mk _ _ _ _ _ _ _ ch => descPairsList ch
def descPairsList : List ResourceStatus → List (String × String)
  | [] => []
  | c :: cs => (c.kind, c.name) :: (descPairs c ++ descPairsList cs)
end

/-- Keys contributed by one forest entry to the `childResources` map
(`collectChildren` runs only on non-nil trees). -/
def treeKeys (d : CompositeData) : List String :=
  match d.tree with
  | some t => descKeys t
  | none => []

/-- The (kind, name) pairs of the strict descendants of one entry's tree. -/
def treePairs (d : CompositeData) : List (String × String) :=
  match d.tree with
  | some t => descPairs t
  | none => []

/-- The `childResources` key set of the root command, as a list. -/
def forestChildKeys (data : List CompositeData) : List String :=
  data.flatMap treeKeys

/-- All (kind, name) pairs occurring as a strict descendant in some tree
of the forest. -/
def forestChildPairs (data : List CompositeData) : List (String × String) :=
  data.flatMap treePairs

/-- Step 4 of the root command: keep exactly the entries whose
`Kind/Name` key is not in the `childResources` set, in input order. -/
def dedupForest (data : List CompositeData) : List CompositeData :=
  data.filter fun d => !(forestChildKeys data).contains (keyOf d.kind d.name)

theorem contains_iff_mem (a : String) (l : List String) :
    l.contains a = true ↔ a ∈ l :=
  List.elem_iff

theorem forestChildKeys_filter_sub (p : CompositeData → Bool)
    (data : List CompositeData) (x : String)
    (hx : x ∈ forestChildKeys (data.filter p)) : x ∈ forestChildKeys data := by
  rw [forestChildKeys, List.mem_flatMap] at hx ⊢
  obtain ⟨d, hd, hxd⟩ := hx
  exact ⟨d, (List.mem_filter.mp hd).1, hxd⟩

/-- C9: the deduplication pass is idempotent — applied to its own
output it removes nothing further, because the surviving entries'
keys already avoid the descendant-key set of the full forest, a
superset of the descendant-key set of the surviving forest. -/
theorem dedup_idempotent (data : List CompositeData) :
    dedupForest (dedupForest data) = dedupForest data := by
  conv_lhs => rw [dedupForest]
  apply List.filter_eq_self.mpr
  intro d hd
  have h1 := (List.mem_filter.mp hd).2
  rw [Bool.not_eq_true'] at h1 ⊢
  apply Bool.eq_false_iff.mpr
  intro hc
  have hk := (contains_iff_mem _ _).mp hc
  have hk2 := forestChildKeys_filter_sub _ data _ hk
  rw [← contains_iff_mem] at hk2
  rw [hk2] at h1
  cases h1

/-- A string with no '/' character (the slash is the key separator, so
slash-free kinds make the combined key unambiguous). -/
def NoSlash (s : String) : Prop := '/' ∉ s.data

instance (s : String) : Decidable (NoSlash s) :=
  inferInstanceAs (Decidable ('/' ∉ s.data))

theorem append_slash_inj : ∀ (a b c d : List Char), '/' ∉ a → '/' ∉ b →
    a ++ '/' :: c = b ++ '/' :: d → a = b ∧ c = d
  | [], [], _, _, _, _, h => ⟨rfl, by simpa using h⟩
  | [], y :: ys, _, _, _, hb, h => by
    rw [List.nil_append, List.cons_append] at h
    injection h with h1 _
    refine absurd ?_ hb
    rw [← h1]
    exact List.mem_cons_self _ _
  | x :: xs, [], _, _, ha, _, h => by
    rw [List.nil_append, List.cons_append] at h
    injection h with h1 _
    refine absurd ?_ ha
    rw [h1]
    exact List.mem_cons_self _ _
  | x :: xs, y :: ys, c, d, ha, hb, h => by
    rw [List.cons_append, List.cons_append] at h
    injection h with h1 h2
    have ha2 : '/' ∉ xs := fun hm => ha (List.mem_cons_of_mem _ hm)
    have hb2 : '/' ∉ ys := fun hm => hb (List.mem_cons_of_mem _ hm)
    obtain ⟨e1, e2⟩ := append_slash_inj xs ys c d ha2 hb2 h2
    exact ⟨by rw [h1, e1], e2⟩

theorem keyOf_inj (k1 n1 k2 n2 : String) (h1 : NoSlash k1) (h2 : NoSlash k2) :
    keyOf k1 n1 = keyOf k2 n2 ↔ k1 = k2 ∧ n1 = n2 := by
  constructor
  · intro h
    have hd := congrArg String.data h
    rw [keyOf, keyOf, String.data_append, String.data_append,
      String.data_append, String.data_append, List.append_assoc,
      List.append_assoc] at hd
    have hs : (("/" : String).data ++ n1.data = '/' :: n1.data) ∧
        (("/" : String).data ++ n2.data = '/' :: n2.data) := ⟨rfl, rfl⟩
    rw [hs.1, hs.2] at hd
    obtain ⟨e1, e2⟩ := append_slash_inj k1.data k2.data n1.data n2.data h1 h2 hd
    exact ⟨String.ext e1, String.ext e2⟩
  · rintro ⟨rfl, rfl⟩
    rfl

mutual
theorem descKeys_eq (t : ResourceStatus) :
    descKeys t = (descPairs t).map fun p => keyOf p.1 p.2 := by
  cases t with
  | mk k n sy rd st ev cd ch =>
    rw [descKeys, descPairs]
    exact descKeysList_eq ch
theorem descKeysList_eq (l : List ResourceStatus) :
    descKeysList l = (descPairsList l).map fun p => keyOf p.1 p.2 := by
  cases l with
  | nil => rfl
  | cons c cs =>
    rw [descKeysList, descPairsList, List.map_cons, List.map_append,
      descKeys_eq c, descKeysList_eq cs]
end

theorem forestChildKeys_eq (data : List CompositeData) :
    forestChildKeys data = (forestChildPairs data).map fun p => keyOf p.1 p.2 := by
  rw [forestChildKeys, forestChildPairs, List.map_flatMap]
  congr 1
  funext d
  rw [treeKeys, treePairs]
  cases d.tree with
  | none => rfl
  | some t => exact descKeys_eq t

/-- C2 (amended): when no kind string (of an entry or of a descendant
node) contains '/', the pass keeps the forest in input order and keeps
exactly the entries whose (kind, name) pair is not a strict-descendant
pair; unrestricted, the comparison is on the combined
`kind ++ "/" ++ name` key strings, which can collide for kinds
containing '/'. Unconditionally — with no slash-freedom hypothesis —
every surviving entry's pair is never a descendant pair, since a
descendant pair's own key is always in the key set. -/
theorem dedup_removes_descendant_roots (data : List CompositeData) :
    ((∀ d ∈ data, NoSlash d.kind) →
      (∀ p ∈ forestChildPairs data, NoSlash p.1) →
      dedupForest data =
        data.filter (fun d => decide ((d.kind, d.name) ∉ forestChildPairs data))) ∧
    ∀ d ∈ dedupForest data, (d.kind, d.name) ∉ forestChildPairs data := by
  constructor
  · intro hroots hdesc
    rw [dedupForest]
    apply List.filter_congr
    intro d hd
    have hiff : keyOf d.kind d.name ∈ forestChildKeys data ↔
        (d.kind, d.name) ∈ forestChildPairs data := by
      rw [forestChildKeys_eq, List.mem_map]
      constructor
      · rintro ⟨p, hp, he⟩
        obtain ⟨e1, e2⟩ :=
          (keyOf_inj p.1 p.2 d.kind d.name (hdesc p hp) (hroots d hd)).mp he
        have hpd : p = (d.kind, d.name) := Prod.ext e1 e2
        rw [← hpd]
        exact hp
      · intro hp
        exact ⟨(d.kind, d.name), hp, rfl⟩
    by_cases hmem : (d.kind, d.name) ∈ forestChildPairs data
    · have hc : (forestChildKeys data).contains (keyOf d.kind d.name) = true :=
        (contains_iff_mem _ _).mpr (hiff.mpr hmem)
      rw [hc]
      simp [hmem]
    · have hc : (forestChildKeys data).contains (keyOf d.kind d.name) = false := by
        apply Bool.eq_false_iff.mpr
        intro hc
        exact hmem (hiff.mp ((contains_iff_mem _ _).mp hc))
      rw [hc]
      simp [hmem]
  · intro d hd hp
    have h1 := (List.mem_filter.mp hd).2
    rw [Bool.not_eq_true'] at h1
    have hk : keyOf d.kind d.name ∈ forestChildKeys data := by
      rw [forestChildKeys_eq, List.mem_map]
      exact ⟨(d.kind, d.name), hp, rfl⟩
    rw [← contains_iff_mem] at hk
    rw [hk] at h1
    cases h1

def childSlash : ResourceStatus := .mk "a/b" "c" "" "" "" [] [] []

def entryA : CompositeData :=
  ⟨"r1", "Root", "",
    some (.mk "Root" "r1" "True" "True" "Available" [] [] [childSlash])⟩

def entryB : CompositeData :=
  ⟨"b/c", "a", "", some (.mk "a" "b/c" "True" "True" "Available" [] [] [])⟩

def dataCex : List CompositeData := [entryA, entryB]

/-- C2 counterexample: the only descendant pair in the forest is
("a/b", "c"), and the pair ("a", "b/c") of the second entry is not a
descendant anywhere; yet the pass removes that entry, because its
combined key "a" ++ "/" ++ "b/c" collides with the descendant key
"a/b" ++ "/" ++ "c", so the pass does not remove exactly the entries
whose (kind, name) pair appears as a descendant. -/
theorem dedup_not_by_pairs :
    forestChildPairs dataCex = [("a/b", "c")] ∧
    ("a", "b/c") ∉ forestChildPairs dataCex ∧
    (dataCex.map fun d => (d.kind, d.name)) = [("Root", "r1"), ("a", "b/c")] ∧
    ((dedupForest dataCex).map fun d => (d.kind, d.name)) = [("Root", "r1")] := by
  refine ⟨by decide, by decide, by decide, by decide⟩

def entryAw : CompositeData :=
  ⟨"r1", "Root", "",
    some (.mk "Root" "r1" "True" "True" "Available" [] []
      [.mk "Child" "x" "True" "True" "Available" [] [] []])⟩

def entryBw : CompositeData :=
  ⟨"x", "Child", "", some (.mk "Child" "x" "True" "True" "Available" [] [] [])⟩

def dataW : List CompositeData := [entryAw, entryBw]

theorem dedup_removes_descendant_roots_witness :
    (∀ d ∈ dataW, NoSlash d.kind) ∧
    (∀ p ∈ forestChildPairs dataW, NoSlash p.1) ∧
    dedupForest dataW =
      dataW.filter (fun d => decide ((d.kind, d.name) ∉ forestChildPairs dataW)) ∧
    ∀ d ∈ dedupForest dataCex, (d.kind, d.name) ∉ forestChildPairs dataCex :=
  ⟨by decide, by decide,
   (dedup_removes_descendant_roots dataW).1 (by decide) (by decide),
   (dedup_removes_descendant_roots dataCex).2⟩
